import Mathlib

/-!
Shallow embedding of `docstring_parser/numpydoc.py` (numpydoc-style docstring
parsing).  Text is modelled as `List Char`.  Python's regular expressions are
embedded by their operational (leftmost-match, backtracking) semantics,
specialised to the concrete patterns appearing in the source.  Whitespace
(`\s`, `str.strip`) is modelled by the six ASCII whitespace characters.
-/

namespace Numpydoc

/-- Python whitespace (ASCII fragment: the characters of `string.whitespace`). -/
def isPySpace (c : Char) : Bool :=
  c = ' ' || c = '\t' || c = '\n' || c = '\r' || c = '\x0b' || c = '\x0c'

/-- Python `str.lstrip()`. -/
def pyLstrip (s : List Char) : List Char := s.dropWhile isPySpace

/-- Python `str.rstrip()`. -/
def pyRstrip (s : List Char) : List Char := (s.reverse.dropWhile isPySpace).reverse

/-- Python `str.strip()`. -/
def pyStrip (s : List Char) : List Char := pyRstrip (pyLstrip s)

/-- `_clean_str` from numpydoc.py: strip, and return `None` when empty. -/
def _clean_str (s : List Char) : Option (List Char) :=
  let t := pyStrip s
  if t = [] then none else some t

/-- Python `str.split('\n')` on lists of characters. -/
def splitLines : List Char → List (List Char)
  | [] => [[]]
  | c :: cs =>
    if c = '\n' then [] :: splitLines cs
    else
      match splitLines cs with
      | l :: ls => (c :: l) :: ls
      | [] => [[c]]

/-- Python `str.split('\n', maxsplit=1)`: the first line, and the rest
(`none` when the text holds no newline). -/
def splitOnce : List Char → List Char × Option (List Char)
  | [] => ([], none)
  | c :: cs =>
    if c = '\n' then ([], some cs)
    else
      let p := splitOnce cs
      (c :: p.1, p.2)

/-- Python `'\n'.join`. -/
def joinNL (ls : List (List Char)) : List Char := List.intercalate ['\n'] ls

/-- Helper for `str.expandtabs()` with tab size 8, tracking the column. -/
def expandtabsAux : List Char → Nat → List Char
  | [], _ => []
  | c :: cs, col =>
    if c = '\t' then
      let n := 8 - col % 8
      List.replicate n ' ' ++ expandtabsAux cs (col + n)
    else if c = '\n' ∨ c = '\r' then c :: expandtabsAux cs 0
    else c :: expandtabsAux cs (col + 1)

/-- Python `str.expandtabs()` (tab size 8). -/
def expandtabs (s : List Char) : List Char := expandtabsAux s 0

/-- Indentation of a non-blank line (`len(line) - len(line.lstrip())`),
`none` for blank lines; used for the margin of `inspect.cleandoc`. -/
def lineMargin (l : List Char) : Option Nat :=
  let content := (l.dropWhile isPySpace).length
  if content > 0 then some (l.length - content) else none

/-- `inspect.cleandoc` (PEP 257): expand tabs, strip the common leading
indentation of all lines after the first, strip the first line, and drop
leading and trailing blank (empty) lines. -/
def cleandoc (doc : List Char) : List Char :=
  let lines := splitLines (expandtabs doc)
  let margin := ((lines.drop 1).filterMap lineMargin).min?
  let lines : List (List Char) :=
    match lines with
    | [] => []
    | l0 :: ls =>
      pyLstrip l0 ::
        (match margin with
         | none => ls
         | some m => ls.map (fun l : List Char => l.drop m))
  let lines := (lines.reverse.dropWhile (· == [])).reverse
  let lines := lines.dropWhile (· == [])
  joinNL lines

/-! ## Key-line regular expressions -/

/-- Split a (newline-free) key line at its first `:`.
Returns the text before and after the colon, or `none` if there is no colon. -/
def splitAtColon : List Char → Option (List Char × List Char)
  | [] => none
  | c :: cs =>
    if c = ':' then some ([], cs)
    else (splitAtColon cs).map (fun p => (c :: p.1, p.2))

/-- `PARAM_KEY_REGEX = ^(?P<name>.*?)(?:\s*:\s*(?P<type>.*?))?$` applied with
`re.match` to a single line: the lazy `name` group makes the first colon the
separator, with the whitespace around it absorbed by the `\s*`s; with no colon
the optional group is skipped and `type` is `None`. -/
def paramKeySplit (key : List Char) : List Char × Option (List Char) :=
  match splitAtColon key with
  | none => (key, none)
  | some (pre, post) => (pyRstrip pre, some (pyLstrip post))

/-- `RETURN_KEY_REGEX = ^(?:(?P<name>.*?)\s*:\s*)?(?P<type>.*?)$` applied with
`re.match` to a single line: with a colon, `name` is the text before the first
colon and `type` the text after; with no colon the optional group is skipped,
`name` is `None` and `type` is the whole line. -/
def returnKeySplit (key : List Char) : Option (List Char) × List Char :=
  match splitAtColon key with
  | none => (none, key)
  | some (pre, post) => (some (pyRstrip pre), pyLstrip post)

/-- `PARAM_OPTIONAL_REGEX = (?P<type>.*?)(?:, optional|\(optional\))$` applied
with `re.match`: both alternatives are ten characters long and end in distinct
characters, so the match strips exactly one trailing marker when present. -/
def stripOptionalSuffix (t : List Char) : Option (List Char) :=
  if ", optional".data.isSuffixOf t || "(optional)".data.isSuffixOf t then
    some (t.take (t.length - 10))
  else none

/-- The character class `[\w\-\.]` of `PARAM_DEFAULT_REGEX` (ASCII `\w`). -/
def isDefaultTokenChar (c : Char) : Bool :=
  c.isAlphanum || c = '_' || c = '-' || c = '.'

/-- The ordered alternatives of `(?: is | = |: |s to |)` in
`PARAM_DEFAULT_REGEX`. -/
def defaultAlternatives : List (List Char) :=
  [" is ".data, " = ".data, ": ".data, "s to ".data, []]

/-- Try the alternatives of `PARAM_DEFAULT_REGEX` in order at a fixed start:
the regex engine backtracks into later alternatives when `\s*(?P<value>...)`
finds no token after an earlier one. -/
def tryDefaultAlts (rest : List Char) : List (List Char) → Option (List Char)
  | [] => none
  | alt :: alts =>
    if alt.isPrefixOf rest then
      let v := ((rest.drop alt.length).dropWhile isPySpace).takeWhile isDefaultTokenChar
      if v = [] then tryDefaultAlts rest alts else some v
    else tryDefaultAlts rest alts

/-- One attempt of `PARAM_DEFAULT_REGEX` anchored at the head of `s`. -/
def tryDefaultAt (s : List Char) : Option (List Char) :=
  if "Default".data.isPrefixOf s || "default".data.isPrefixOf s then
    tryDefaultAlts (s.drop 7) defaultAlternatives
  else none

/-- `PARAM_DEFAULT_REGEX.search`: leftmost successful attempt. -/
def defaultSearch : List Char → Option (List Char)
  | [] => none
  | c :: cs =>
    match tryDefaultAt (c :: cs) with
    | some v => some v
    | none => defaultSearch cs

/-! ## Section descriptors and metadata records -/

/-- The section kinds of numpydoc.py: `Section` (plain), `ParamSection`,
`RaisesSection`, `ReturnsSection`/`YieldsSection` (distinguished only by the
class attribute `is_generator`), and `DeprecationSection`. -/
inductive SectionKind where
  | plain
  | param
  | raises
  | ret (is_generator : Bool)
  | deprecation
deriving DecidableEq, Repr

/-- A section descriptor: `Section(title, key)` together with which subclass
it is instantiated from. -/
structure Section where
  title : List Char
  key : List Char
  kind : SectionKind
deriving DecidableEq, Repr

/-- Modelled from the spec: the Meta record tagged union of `common.py`
(not in src/).  Every variant carries a tag path `args` and an optional
description; the variant-specific fields (`DocstringParam`,
`DocstringRaises`, `DocstringReturns`, `DocstringDeprecated`) are optional
fields left `none` by the other variants. -/
structure DocstringMeta where
  args : List (List Char)
  description : Option (List Char)
  arg_name : Option (List Char) := none
  type_name : Option (List Char) := none
  is_optional : Option Bool := none
  default : Option (List Char) := none
  is_generator : Option Bool := none
  return_name : Option (List Char) := none
  version : Option (List Char) := none
deriving DecidableEq, Repr

/-- Modelled from the spec: the root `Docstring` record of `common.py`
(not in src/); "Empty input → returns a Docstring with all fields absent and
an empty metadata list", so every field defaults to absent. -/
structure Docstring where
  short_description : Option (List Char) := none
  long_description : Option (List Char) := none
  blank_after_short_description : Option Bool := none
  blank_after_long_description : Option Bool := none
  meta : List DocstringMeta := []
deriving DecidableEq, Repr

/-! ## Key/value item splitting (`KV_REGEX = ^[^\s].*$`, `re.M`) -/

/-- A line is an item start when it begins with a non-whitespace character. -/
def isItemStart : List Char → Bool
  | [] => false
  | c :: _ => !isPySpace c

/-- Walk the lines of a section chunk, carving out `(key, value)` pairs:
`key` is an item-start line, `value` is the raw text between the end of the
key line and the start of the next item-start line (or the end of the chunk),
exactly as the slice `text[match.end():next_match.start()]`. -/
def kvCollect : List (List Char) → Option (List Char × List (List Char)) → List (List Char × List Char)
  | [], none => []
  | [], some (k, body) => [(k, joinNL ([] :: body.reverse))]
  | l :: ls, cur =>
    if isItemStart l then
      (match cur with
       | none => []
       | some (k, body) => [(k, joinNL (([] :: body.reverse) ++ [[]]))]) ++
        kvCollect ls (some (l, []))
    else
      match cur with
      | none => kvCollect ls none
      | some (k, body) => kvCollect ls (some (k, l :: body))

/-- `_KVSection.parse`'s item splitting via `KV_REGEX.finditer`. -/
def kvItems (text : List Char) : List (List Char × List Char) :=
  kvCollect (splitLines text) none

/-! ## Field extractors -/

/-- `ParamSection._parse_item`. -/
def paramParseItem (skey key value : List Char) : DocstringMeta :=
  let ns := paramKeySplit key
  let arg_name := ns.1
  let to_ : Option (List Char) × Option Bool :=
    match ns.2 with
    | none => (none, none)
    | some t =>
      match stripOptionalSuffix t with
      | some t2 => (some t2, some true)
      | none => (some t, some false)
  let dflt := match value with | [] => none | _ => defaultSearch value
  { args := [skey, arg_name], description := _clean_str value,
    arg_name := some arg_name, type_name := to_.1, is_optional := to_.2,
    default := dflt }

/-- `RaisesSection._parse_item`. -/
def raisesParseItem (skey key value : List Char) : DocstringMeta :=
  { args := [skey, key], description := _clean_str value,
    type_name := match key with | [] => none | _ => some key }

/-- `ReturnsSection._parse_item` (also `YieldsSection` via `is_generator`). -/
def returnsParseItem (skey : List Char) (gen : Bool) (key value : List Char) : DocstringMeta :=
  let nt := returnKeySplit key
  { args := [skey], description := _clean_str value,
    type_name := some nt.2, is_generator := some gen, return_name := nt.1 }

/-- `DeprecationSection.parse`: first line is the version, the remainder
(after the newline) is cleaned and becomes the description. -/
def deprecationParse (skey : List Char) (text : List Char) : List DocstringMeta :=
  let vd := splitOnce text
  let desc :=
    match vd.2 with
    | none => none
    | some d => _clean_str (cleandoc d)
  [{ args := [skey], description := desc, version := _clean_str vd.1 }]

/-- Dispatch a section chunk through the section's parser
(`Section.parse` / `_KVSection.parse` / `DeprecationSection.parse`). -/
def sectionParse (sec : Section) (text : List Char) : List DocstringMeta :=
  match sec.kind with
  | .plain => [{ args := [sec.key], description := _clean_str text }]
  | .param => (kvItems text).map (fun kv => paramParseItem sec.key kv.1 (cleandoc kv.2))
  | .raises => (kvItems text).map (fun kv => raisesParseItem sec.key kv.1 (cleandoc kv.2))
  | .ret g => (kvItems text).map (fun kv => returnsParseItem sec.key g kv.1 (cleandoc kv.2))
  | .deprecation => deprecationParse sec.key text

/-! ## Title patterns (the compiled `titles_re`) -/

/-- `\s*$` (with `re.M`) after the underline: the greedy `\s*` consumes the
longest whitespace run that ends at the end of the string or just before a
newline; fails when no such run exists.  Returns the length consumed. -/
def wsEol : List Char → Option Nat
  | [] => some 0
  | c :: cs =>
    if isPySpace c then
      match wsEol cs with
      | some k => some (k + 1)
      | none => if c = '\n' then some 0 else none
    else none

/-- `\s*?\n` + underline + `\s*$` after the title, with the lazy `\s*?`
backtracking into longer whitespace runs when the underline does not follow
the first newline.  Returns the length consumed. -/
def matchAfterTitle (dashes : List Char) : List Char → Option Nat
  | [] => none
  | c :: cs =>
    if c = '\n' then
      match
        (if dashes.isPrefixOf cs then
          (wsEol (cs.drop dashes.length)).map (fun k => 1 + dashes.length + k)
        else none) with
      | some n => some n
      | none => (matchAfterTitle dashes cs).map (· + 1)
    else if isPySpace c then (matchAfterTitle dashes cs).map (· + 1)
    else none

/-- `Section.title_pattern = ^(TITLE)\s*?\n----\s*$` matched at a line start:
the literal title, then `matchAfterTitle` with as many dashes as the title has
characters.  Returns the length of the match. -/
def matchPlainTitle (title : List Char) (s : List Char) : Option Nat :=
  if title.isPrefixOf s then
    (matchAfterTitle (List.replicate title.length '-') (s.drop title.length)).map
      (title.length + ·)
  else none

/-- `SphinxSection.title_pattern = ^\.\.\s*(TITLE)\s*::` matched at a line
start (faithful for titles that do not begin with whitespace, as in the
defaults).  Returns the length of the match. -/
def matchSphinxTitle (title : List Char) (s : List Char) : Option Nat :=
  match s with
  | '.' :: '.' :: rest =>
    let n1 := (rest.takeWhile isPySpace).length
    let r1 := rest.drop n1
    if title.isPrefixOf r1 then
      let r2 := r1.drop title.length
      let n2 := (r2.takeWhile isPySpace).length
      match r2.drop n2 with
      | ':' :: ':' :: _ => some (2 + n1 + title.length + n2 + 2)
      | _ => none
    else none
  | _ => none

/-- Which pattern a section contributes to `titles_re`. -/
def matchSectionAt (sec : Section) (s : List Char) : Option Nat :=
  match sec.kind with
  | .deprecation => matchSphinxTitle sec.title s
  | _ => matchPlainTitle sec.title s

/-- Try the alternatives of `titles_re` in registry order at one position. -/
def tryTitles (regs : List Section) (s : List Char) : Option (Section × Nat) :=
  match regs with
  | [] => none
  | sec :: rest =>
    match matchSectionAt sec s with
    | some n => some (sec, n)
    | none => tryTitles rest s

/-- Position `p` starts a line (for the `^` anchor under `re.M`). -/
def isLineStart (text : List Char) (p : Nat) : Bool :=
  p = 0 || text[p - 1]? == some '\n'

/-- `titles_re.search` from position `pos` (fuelled scan over positions):
the leftmost position at which some alternative matches, alternatives tried
in registry order.  Returns `(start, section, end)`. -/
def findMatchFrom (regs : List Section) (text : List Char) : Nat → Nat → Option (Nat × Section × Nat)
  | 0, _ => none
  | fuel + 1, pos =>
    if text.length < pos then none
    else if isLineStart text pos then
      match tryTitles regs (text.drop pos) with
      | some (sec, n) => some (pos, sec, pos + n)
      | none => findMatchFrom regs text fuel (pos + 1)
    else findMatchFrom regs text fuel (pos + 1)

/-- `titles_re.search(text)`. -/
def firstTitleMatch (regs : List Section) (text : List Char) : Option (Nat × Section × Nat) :=
  findMatchFrom regs text (text.length + 1) 0

/-- `titles_re.finditer`: non-overlapping matches, each search resuming at the
end of the previous match (all these matches are non-empty). -/
def finditerAux (regs : List Section) (text : List Char) : Nat → Nat → List (Nat × Section × Nat)
  | 0, _ => []
  | fuel + 1, pos =>
    match findMatchFrom regs text (text.length + 1 - pos) pos with
    | none => []
    | some (s, sec, e) => (s, sec, e) :: finditerAux regs text fuel (max e (s + 1))

/-- `titles_re.finditer(text)` from the start. -/
def finditer (regs : List Section) (text : List Char) : List (Nat × Section × Nat) :=
  finditerAux regs text (text.length + 1) 0

/-! ## The default registry and registry mutation -/

/-- `DEFAULT_SECTIONS`, in dict insertion order (all titles distinct). -/
def defaultSections : List Section := [
  ⟨"Parameters".data, "param".data, .param⟩,
  ⟨"Params".data, "param".data, .param⟩,
  ⟨"Arguments".data, "param".data, .param⟩,
  ⟨"Args".data, "param".data, .param⟩,
  ⟨"Other Parameters".data, "other_param".data, .param⟩,
  ⟨"Other Params".data, "other_param".data, .param⟩,
  ⟨"Other Arguments".data, "other_param".data, .param⟩,
  ⟨"Other Args".data, "other_param".data, .param⟩,
  ⟨"Receives".data, "receives".data, .param⟩,
  ⟨"Receive".data, "receives".data, .param⟩,
  ⟨"Raises".data, "raises".data, .raises⟩,
  ⟨"Raise".data, "raises".data, .raises⟩,
  ⟨"Warns".data, "warns".data, .raises⟩,
  ⟨"Warn".data, "warns".data, .raises⟩,
  ⟨"Attributes".data, "attribute".data, .param⟩,
  ⟨"Attribute".data, "attribute".data, .param⟩,
  ⟨"Returns".data, "returns".data, .ret false⟩,
  ⟨"Return".data, "returns".data, .ret false⟩,
  ⟨"Yields".data, "yields".data, .ret true⟩,
  ⟨"Yield".data, "yields".data, .ret true⟩,
  ⟨"Examples".data, "examples".data, .plain⟩,
  ⟨"Example".data, "examples".data, .plain⟩,
  ⟨"Warnings".data, "warnings".data, .plain⟩,
  ⟨"Warning".data, "warnings".data, .plain⟩,
  ⟨"See Also".data, "see_also".data, .plain⟩,
  ⟨"Related".data, "see_also".data, .plain⟩,
  ⟨"Notes".data, "notes".data, .plain⟩,
  ⟨"Note".data, "notes".data, .plain⟩,
  ⟨"References".data, "references".data, .plain⟩,
  ⟨"Reference".data, "references".data, .plain⟩,
  ⟨"deprecated".data, "deprecation".data, .deprecation⟩]

/-- `NumpyParser.add_section`: `self.sections[section.title] = section`
(a Python dict update keeps the position of an existing key and appends a new
one), followed by `_setup()` recompiling the pattern — in this embedding the
pattern is always derived from the current registry. -/
def addSection (regs : List Section) (s : Section) : List Section :=
  if regs.any (fun x => x.title == s.title) then
    regs.map (fun x => if x.title == s.title then s else x)
  else regs ++ [s]

/-- `self.sections[title]` lookup. -/
def lookupTitle (regs : List Section) (t : List Char) : Option Section :=
  regs.find? (fun x => x.title == t)

/-! ## Top-level parse -/

/-- `long_desc_chunk.startswith("\n")`. -/
def startsWithNewline : List Char → Bool
  | '\n' :: _ => true
  | _ => false

/-- `long_desc_chunk.endswith("\n\n")`. -/
def endsWithTwoNewlines (s : List Char) : Bool := "\n\n".data.isSuffixOf s

/-- Fill the description fields of the result from the description chunk:
split at the first newline; the first part is the short description
(empty → absent); when a remainder exists, the blank-line flags are set and
the stripped remainder becomes the long description. -/
def descChunkFill (desc_chunk : List Char) : Docstring :=
  let parts := splitOnce desc_chunk
  let short := match parts.1 with | [] => none | s => some s
  match parts.2 with
  | none => { short_description := short }
  | some rest =>
    { short_description := short,
      blank_after_short_description := some (startsWithNewline rest),
      blank_after_long_description := some (endsWithTwoNewlines rest),
      long_description := _clean_str rest }

/-- The meta chunk: the cleaned text from the first title match onward
(empty when the input is empty or no title matches). -/
def metaChunkOf (regs : List Section) (text0 : List Char) : List Char :=
  if text0 = [] then []
  else
    let text := cleandoc text0
    match firstTitleMatch regs text with
    | some m => text.drop m.1
    | none => []

/-- All title matches inside the meta chunk. -/
def sectionMatchesOf (regs : List Section) (text0 : List Char) : List (Nat × Section × Nat) :=
  finditer regs (metaChunkOf regs text0)

/-- `_pairwise`: each element with its successor (`none` for the last). -/
def pairwiseNext {α : Type} : List α → List (α × Option α)
  | [] => []
  | [a] => [(a, none)]
  | a :: b :: rest => (a, some b) :: pairwiseNext (b :: rest)

/-- The Python slice `text[start:stop]` (`stop = none` meaning to the end). -/
def sliceChunk (text : List Char) (start : Nat) (stop : Option Nat) : List Char :=
  match stop with
  | some e => (text.take e).drop start
  | none => text.drop start

/-- Each matched section paired with its chunk: from the end of its own match
to the start of the next match (or the end of the meta chunk). -/
def sectionChunksOf (regs : List Section) (text0 : List Char) : List (Section × List Char) :=
  (pairwiseNext (sectionMatchesOf regs text0)).map
    (fun mn => (mn.1.2.1, sliceChunk (metaChunkOf regs text0) mn.1.2.2 (mn.2.map (·.1))))

/-- `NumpyParser.parse`: empty input short-circuits to the default record;
otherwise clean the text, split description from meta chunk at the first
title match, fill the description fields, and concatenate the records of each
section chunk in match order. -/
def parseWith (regs : List Section) (text0 : List Char) : Docstring :=
  if text0 = [] then {}
  else
    let text := cleandoc text0
    let desc_chunk :=
      match firstTitleMatch regs text with
      | some m => text.take m.1
      | none => text
    { descChunkFill desc_chunk with
      meta := (sectionChunksOf regs text0).flatMap (fun sc => sectionParse sc.1 sc.2) }

/-- Module-level `parse`: a `NumpyParser` over the default sections. -/
def parse (text : List Char) : Docstring := parseWith defaultSections text

/-- An optional text field is clean when it is absent or a non-empty string
equal to its own strip. -/
def cleanOpt (o : Option (List Char)) : Prop :=
  o = none ∨ ∃ s, o = some s ∧ s ≠ [] ∧ pyStrip s = s

/-! ## Supporting lemmas -/

theorem dropWhile_dropWhile (p : α → Bool) (l : List α) :
    (l.dropWhile p).dropWhile p = l.dropWhile p := by
  induction l with
  | nil => simp
  | cons c cs ih => by_cases h : p c <;> simp [List.dropWhile_cons, h, ih]

theorem pyLstrip_pyLstrip (l : List Char) : pyLstrip (pyLstrip l) = pyLstrip l :=
  dropWhile_dropWhile isPySpace l

theorem pyRstrip_pyRstrip (l : List Char) : pyRstrip (pyRstrip l) = pyRstrip l := by
  unfold pyRstrip
  rw [List.reverse_reverse, dropWhile_dropWhile]

theorem pyRstrip_prefix (l : List Char) : pyRstrip l <+: l := by
  have h : (l.reverse.dropWhile isPySpace).reverse.reverse <:+ l.reverse := by
    simpa using List.dropWhile_suffix (l := l.reverse) (p := isPySpace)
  exact List.reverse_suffix.mp h

theorem pyLstrip_pyRstrip_of_lstripped (l : List Char) (hl : pyLstrip l = l) :
    pyLstrip (pyRstrip l) = pyRstrip l := by
  cases hp : pyRstrip l with
  | nil => simp [pyLstrip]
  | cons c cs =>
    have hpre : c :: cs <+: l := hp ▸ pyRstrip_prefix l
    obtain ⟨t, ht⟩ := hpre
    have h0 := List.head?_dropWhile_not isPySpace l
    have hl' : l.dropWhile isPySpace = l := hl
    rw [hl', ← ht] at h0
    simp only [List.cons_append, List.head?_cons] at h0
    simp [pyLstrip, List.dropWhile_cons, h0]

theorem pyStrip_idem (l : List Char) : pyStrip (pyStrip l) = pyStrip l := by
  unfold pyStrip
  rw [pyLstrip_pyRstrip_of_lstripped (pyLstrip l) (pyLstrip_pyLstrip l), pyRstrip_pyRstrip]

theorem cleanOpt_clean_str (s : List Char) : cleanOpt (_clean_str s) := by
  unfold _clean_str cleanOpt
  by_cases h : pyStrip s = []
  · left
    simp [h]
  · right
    exact ⟨pyStrip s, by simp [h], h, pyStrip_idem s⟩

theorem cleanOpt_none : cleanOpt none := Or.inl rfl

theorem paramParseItem_description (skey key value : List Char) :
    (paramParseItem skey key value).description = _clean_str value := rfl

theorem paramParseItem_version (skey key value : List Char) :
    (paramParseItem skey key value).version = none := rfl

theorem raisesParseItem_description (skey key value : List Char) :
    (raisesParseItem skey key value).description = _clean_str value := rfl

theorem raisesParseItem_version (skey key value : List Char) :
    (raisesParseItem skey key value).version = none := rfl

theorem returnsParseItem_description (skey : List Char) (g : Bool) (key value : List Char) :
    (returnsParseItem skey g key value).description = _clean_str value := rfl

theorem returnsParseItem_version (skey : List Char) (g : Bool) (key value : List Char) :
    (returnsParseItem skey g key value).version = none := rfl

theorem sectionParse_cleanOpt (sec : Section) (text : List Char) :
    ∀ m ∈ sectionParse sec text, cleanOpt m.description ∧ cleanOpt m.version := by
  intro m hm
  rcases sec with ⟨t, k, kind⟩
  cases kind with
  | plain =>
    simp only [sectionParse, List.mem_singleton] at hm
    subst hm
    exact ⟨cleanOpt_clean_str text, cleanOpt_none⟩
  | param =>
    simp only [sectionParse, List.mem_map] at hm
    obtain ⟨kv, _, rfl⟩ := hm
    exact ⟨paramParseItem_description _ _ _ ▸ cleanOpt_clean_str _,
      paramParseItem_version _ _ _ ▸ cleanOpt_none⟩
  | raises =>
    simp only [sectionParse, List.mem_map] at hm
    obtain ⟨kv, _, rfl⟩ := hm
    exact ⟨raisesParseItem_description _ _ _ ▸ cleanOpt_clean_str _,
      raisesParseItem_version _ _ _ ▸ cleanOpt_none⟩
  | ret g =>
    simp only [sectionParse, List.mem_map] at hm
    obtain ⟨kv, _, rfl⟩ := hm
    exact ⟨returnsParseItem_description _ _ _ _ ▸ cleanOpt_clean_str _,
      returnsParseItem_version _ _ _ _ ▸ cleanOpt_none⟩
  | deprecation =>
    simp only [sectionParse, deprecationParse, List.mem_singleton] at hm
    subst hm
    refine ⟨?_, cleanOpt_clean_str _⟩
    cases h2 : (splitOnce text).2 with
    | none => simpa [h2] using cleanOpt_none
    | some d => simpa [h2] using cleanOpt_clean_str (cleandoc d)

theorem matchPlainTitle_nil (title : List Char) : matchPlainTitle title [] = none := by
  cases title with
  | nil => simp [matchPlainTitle, matchAfterTitle]
  | cons c cs => simp [matchPlainTitle, List.isPrefixOf]

theorem matchSectionAt_nil (sec : Section) : matchSectionAt sec [] = none := by
  cases h : sec.kind <;> simp [matchSectionAt, h, matchSphinxTitle, matchPlainTitle_nil]

theorem tryTitles_nil (regs : List Section) : tryTitles regs [] = none := by
  induction regs with
  | nil => rfl
  | cons sec rest ih => simp [tryTitles, matchSectionAt_nil, ih]

theorem findMatchFrom_nil (regs : List Section) (fuel pos : Nat) :
    findMatchFrom regs [] fuel pos = none := by
  induction fuel generalizing pos with
  | zero => rfl
  | succ n ih =>
    simp only [findMatchFrom, List.length_nil]
    by_cases h : 0 < pos
    · simp [h]
    · simp [h, tryTitles_nil, isLineStart, ih]

theorem finditer_nil (regs : List Section) : finditer regs [] = [] := by
  simp [finditer, finditerAux, findMatchFrom_nil]

theorem kvItems_nil : kvItems [] = [] := rfl

theorem findMatchFrom_le (regs : List Section) (text : List Char) (fuel : Nat) :
    ∀ pos s sec e, findMatchFrom regs text fuel pos = some (s, sec, e) → pos ≤ s := by
  induction fuel with
  | zero =>
    intro pos s sec e h
    simp [findMatchFrom] at h
  | succ n ih =>
    intro pos s sec e h
    simp only [findMatchFrom] at h
    by_cases h1 : text.length < pos
    · rw [if_pos h1] at h
      simp at h
    · rw [if_neg h1] at h
      cases h2 : isLineStart text pos with
      | true =>
        rw [if_pos h2] at h
        cases h3 : tryTitles regs (text.drop pos) with
        | some sn =>
          rw [h3] at h
          cases h
          exact Nat.le_refl pos
        | none =>
          rw [h3] at h
          exact Nat.le_of_succ_le (ih (pos + 1) s sec e h)
      | false =>
        rw [if_neg (by simp [h2])] at h
        exact Nat.le_of_succ_le (ih (pos + 1) s sec e h)

theorem finditerAux_le (regs : List Section) (text : List Char) (fuel : Nat) :
    ∀ pos x, x ∈ finditerAux regs text fuel pos → pos ≤ x.1 := by
  induction fuel with
  | zero =>
    intro pos x hx
    simp [finditerAux] at hx
  | succ n ih =>
    intro pos x hx
    simp only [finditerAux] at hx
    cases h : findMatchFrom regs text (text.length + 1 - pos) pos with
    | none => rw [h] at hx; simp at hx
    | some m =>
      obtain ⟨s, sec, e⟩ := m
      rw [h] at hx
      rcases List.mem_cons.mp hx with rfl | hx'
      · exact findMatchFrom_le regs text _ pos s sec e h
      · have h1 := findMatchFrom_le regs text _ pos s sec e h
        have h2 := ih (max e (s + 1)) x hx'
        have h3 : s + 1 ≤ max e (s + 1) := Nat.le_max_right _ _
        omega

theorem finditerAux_sorted (regs : List Section) (text : List Char) (fuel : Nat) :
    ∀ pos, List.Pairwise (fun a b => a.1 < b.1) (finditerAux regs text fuel pos) := by
  induction fuel with
  | zero =>
    intro pos
    simp [finditerAux]
  | succ n ih =>
    intro pos
    simp only [finditerAux]
    cases h : findMatchFrom regs text (text.length + 1 - pos) pos with
    | none => exact List.Pairwise.nil
    | some m =>
      obtain ⟨s, sec, e⟩ := m
      refine List.Pairwise.cons ?_ (ih (max e (s + 1)))
      intro x hx
      have h2 := finditerAux_le regs text n (max e (s + 1)) x hx
      have h3 : s + 1 ≤ max e (s + 1) := Nat.le_max_right _ _
      omega

theorem kvCollect_keys (ls : List (List Char)) :
    ∀ cur, (kvCollect ls cur).map (fun kv => kv.1) =
      (match cur with | none => [] | some kb => [kb.1]) ++ ls.filter isItemStart := by
  induction ls with
  | nil =>
    intro cur
    cases cur with
    | none => simp [kvCollect]
    | some kb => obtain ⟨k, b⟩ := kb; simp [kvCollect]
  | cons l ls ih =>
    intro cur
    cases hl : isItemStart l with
    | true =>
      cases cur with
      | none => simp [kvCollect, hl, ih (some (l, [])), List.filter_cons]
      | some kb =>
        obtain ⟨k, b⟩ := kb
        simp [kvCollect, hl, ih (some (l, [])), List.filter_cons]
    | false =>
      cases cur with
      | none => simp [kvCollect, hl, ih none, List.filter_cons]
      | some kb =>
        obtain ⟨k, b⟩ := kb
        simp [kvCollect, hl, ih (some (k, l :: b)), List.filter_cons]

theorem kvItems_keys (text : List Char) :
    (kvItems text).map (fun kv => kv.1) = (splitLines text).filter isItemStart := by
  simpa using kvCollect_keys (splitLines text) none

theorem stripOptionalSuffix_comma (t : List Char) :
    stripOptionalSuffix (t ++ ", optional".data) = some t := by
  have hs : ", optional".data.isSuffixOf (t ++ ", optional".data) = true := by
    rw [List.isSuffixOf_iff_suffix]
    exact List.suffix_append t _
  simp only [stripOptionalSuffix, hs, Bool.true_or, if_true]
  have hlen : (t ++ ", optional".data).length - 10 = t.length := by
    simp [List.length_append]
  rw [hlen, List.take_left]

theorem stripOptionalSuffix_paren (t : List Char) :
    stripOptionalSuffix (t ++ "(optional)".data) = some t := by
  have hs : "(optional)".data.isSuffixOf (t ++ "(optional)".data) = true := by
    rw [List.isSuffixOf_iff_suffix]
    exact List.suffix_append t _
  simp only [stripOptionalSuffix, hs, Bool.or_true, if_true]
  have hlen : (t ++ "(optional)".data).length - 10 = t.length := by
    simp [List.length_append]
  rw [hlen, List.take_left]

theorem lookupTitle_addSection (R : List Section) (s : Section) (t : List Char) :
    lookupTitle (addSection R s) t = if s.title == t then some s else lookupTitle R t := by
  unfold addSection lookupTitle
  by_cases hmem : R.any (fun x => x.title == s.title)
  · rw [if_pos hmem, List.find?_map]
    by_cases hts : s.title == t
    · have hts' : s.title = t := by simpa using hts
      subst hts'
      rw [if_pos hts]
      have hfun : ((fun x : Section => x.title == s.title) ∘
          (fun x => if x.title == s.title then s else x)) =
            (fun x : Section => x.title == s.title) := by
        funext x
        simp only [Function.comp_apply]
        by_cases hx : x.title == s.title
        · rw [if_pos hx, hx]
          simp
        · rw [if_neg hx]
      rw [hfun]
      obtain ⟨x0, hx0⟩ := Option.isSome_iff_exists.mp
        (by rw [List.find?_isSome]
            obtain ⟨x, hx, hpx⟩ := List.any_eq_true.mp hmem
            exact ⟨x, hx, hpx⟩)
      have hpx0 := List.find?_some hx0
      rw [hx0]
      show some (if x0.title == s.title then s else x0) = some s
      rw [if_pos hpx0]
    · have hts' : (s.title == t) = false := by simpa using hts
      rw [if_neg hts]
      have hfun : ((fun x : Section => x.title == t) ∘
          (fun x => if x.title == s.title then s else x)) =
            (fun x : Section => x.title == t) := by
        funext x
        simp only [Function.comp_apply]
        by_cases hx : x.title == s.title
        · have hx' : x.title = s.title := by simpa using hx
          rw [if_pos hx, hx']
        · rw [if_neg hx]
      rw [hfun]
      cases hf : R.find? (fun x => x.title == t) with
      | none => rfl
      | some x0 =>
        have hpx0 := List.find?_some hf
        have h1 : x0.title = t := by simpa using hpx0
        have h2 : s.title ≠ t := by simpa using hts
        have hx0ne : ¬ ((x0.title == s.title) = true) := by
          rw [h1]
          simp
          exact fun hh => h2 hh.symm
        show some (if x0.title == s.title then s else x0) = some x0
        rw [if_neg hx0ne]
  · rw [if_neg hmem]
    rw [List.find?_append]
    by_cases hts : s.title == t
    · have hts' : s.title = t := by simpa using hts
      have hnone : R.find? (fun x => x.title == t) = none := by
        rw [← Option.not_isSome_iff_eq_none, List.find?_isSome]
        subst hts'
        intro hex
        exact hmem (List.any_eq_true.mpr (by simpa using hex))
      rw [hnone, Option.none_or, List.find?_singleton, if_pos hts]
    · rw [List.find?_singleton, if_neg hts, Option.or_none, if_neg hts]

end Numpydoc

namespace Numpydoc

/-! ## Claims -/

/-- C1: for every input text, `parse` terminates and returns a `Docstring`,
and every section extractor terminates and returns a list of records: in this
embedding they are total functions into `Docstring` and `List DocstringMeta`
(no error value in any result type), matching the source's lack of any
raising path. -/
theorem parse_never_fails (text chunk : List Char) (sec : Section) :
    (∃ d : Docstring, parse text = d) ∧
    (∃ ms : List DocstringMeta, sectionParse sec chunk = ms) :=
  ⟨⟨parse text, rfl⟩, ⟨sectionParse sec chunk, rfl⟩⟩

/-- C6: `parse` on the empty string returns a `Docstring` with the short and
long descriptions and both blank-line flags absent and an empty metadata
list. -/
theorem parse_empty_all_absent :
    parse [] = {} ∧
    (parse []).short_description = none ∧
    (parse []).long_description = none ∧
    (parse []).blank_after_short_description = none ∧
    (parse []).blank_after_long_description = none ∧
    (parse []).meta = [] :=
  ⟨rfl, rfl, rfl, rfl, rfl, rfl⟩

/-- C9 counterexample: a Plain section with an empty chunk still yields one
metadata record, and in the full parse of `"Notes\n-----\nExamples\n--------"`
the empty `Notes` section (its header immediately followed by the next
header) contributes a record, so the metadata list has two entries, not
one. -/
theorem empty_chunk_plain_record_cex :
    sectionParse ⟨"Notes".data, "notes".data, .plain⟩ [] =
      [{ args := ["notes".data], description := none }] ∧
    (parse "Notes\n-----\nExamples\n--------".data).meta.map (fun m => m.args) =
      [["notes".data], ["examples".data]] ∧
    ¬ ((parse "Notes\n-----\nExamples\n--------".data).meta.length = 1) :=
  ⟨rfl, by decide, by decide⟩

/-- C9 amended: a key/value section (ParameterLike, RaiseLike, ReturnLike or
YieldLike) whose chunk is empty contributes zero metadata records and this is
not an error, while a Plain or Deprecation section with an empty chunk still
emits exactly one record with all optional fields absent. -/
theorem empty_chunk_record_counts (t k : List Char) (g : Bool) :
    sectionParse ⟨t, k, .param⟩ [] = [] ∧
    sectionParse ⟨t, k, .raises⟩ [] = [] ∧
    sectionParse ⟨t, k, .ret g⟩ [] = [] ∧
    sectionParse ⟨t, k, .plain⟩ [] = [{ args := [k], description := none }] ∧
    sectionParse ⟨t, k, .deprecation⟩ [] =
      [{ args := [k], description := none, version := none }] :=
  ⟨rfl, rfl, rfl, rfl, rfl⟩

/-- C4 counterexample: for the key line `"x :"` the type clause is the empty
string and it is recorded as `some ""`, not normalized to absent — both at
the extractor and through a full parse. -/
theorem returns_empty_type_kept_cex :
    (returnsParseItem "returns".data false "x :".data []).type_name = some [] ∧
    ¬ ((returnsParseItem "returns".data false "x :".data []).type_name = none) ∧
    (parse "Returns\n-------\nx :\n    d.".data).meta.map (fun m => m.type_name) =
      [some []] :=
  ⟨by decide, by decide, by decide⟩

/-- C4 amended: a ReturnLike/YieldLike key line is matched as an optional
`name : type` shape: the name clause is absent exactly when the line has no
colon, the type clause is always present and recorded as-is (an empty type
stays the empty string rather than being normalized to absent), and the
record's `is_generator` flag is fixed by the section kind.  The key line
`"int"` yields return name absent and type name `"int"`. -/
theorem returns_key_shape (skey key value : List Char) (g : Bool) :
    (returnsParseItem skey g key value).return_name = (returnKeySplit key).1 ∧
    (returnsParseItem skey g key value).type_name = some (returnKeySplit key).2 ∧
    (returnsParseItem skey g key value).is_generator = some g ∧
    (splitAtColon key = none →
      (returnsParseItem skey g key value).return_name = none ∧
      (returnsParseItem skey g key value).type_name = some key) ∧
    (returnsParseItem "returns".data false "int".data []).return_name = none ∧
    (returnsParseItem "returns".data false "int".data []).type_name = some "int".data := by
  refine ⟨rfl, rfl, rfl, fun h => ?_, by decide, by decide⟩
  simp [returnsParseItem, returnKeySplit, h]

/-- Witness for `returns_key_shape` at the concrete key line `"int"`. -/
theorem returns_key_shape_witness :
    (returnsParseItem "returns".data true "int".data []).return_name = none ∧
    (returnsParseItem "returns".data true "int".data []).type_name = some "int".data :=
  (returns_key_shape "returns".data "int".data [] true).2.2.2.1 (by decide)

/-- C8: the alias titles `"Args"` and `"Parameters"` are registered with the
same key tag `"param"`, and parsing two inputs identical apart from the
header produces identical metadata records tagged `"param"` in both cases. -/
theorem alias_titles_same_key :
    (parse "Args\n----\nx : int\n    d.".data).meta =
      (parse "Parameters\n----------\nx : int\n    d.".data).meta ∧
    (parse "Args\n----\nx : int\n    d.".data).meta.map (fun m => m.args.head?) =
      [some "param".data] ∧
    lookupTitle defaultSections "Args".data =
      some ⟨"Args".data, "param".data, .param⟩ ∧
    lookupTitle defaultSections "Parameters".data =
      some ⟨"Parameters".data, "param".data, .param⟩ :=
  ⟨by decide, by decide, by decide, by decide⟩

/-- C5 counterexample: for the input `"  a"` (which contains no recognized
section header) the short description is `"a"`, produced from the first line
of the PEP-257-cleaned text, and not the first line `"  a"` of the raw
input. -/
theorem raw_first_line_cex :
    (parse "  a".data).short_description = some "a".data ∧
    ¬ ((parse "  a".data).short_description = some "  a".data) :=
  ⟨by decide, by decide⟩

/-- C5 amended: for every non-empty input whose cleaned text
(`inspect.cleandoc`, PEP 257) contains no recognized section header, the
metadata list is empty, the short description is the first line of the
cleaned text (empty normalized to absent), and when the cleaned text has a
remainder after the first newline the long description is the stripped
remainder (absent if empty), the blank-after-short flag is true iff the
remainder begins with a newline and the blank-after-long flag is true iff
the remainder ends with two consecutive newlines; with no remainder all
three stay absent. -/
theorem no_header_description_split (text0 : List Char) (h0 : ¬ (text0 = []))
    (hnone : firstTitleMatch defaultSections (cleandoc text0) = none) :
    (parse text0).meta = [] ∧
    (parse text0).short_description =
      (match (splitOnce (cleandoc text0)).1 with | [] => none | s => some s) ∧
    (match (splitOnce (cleandoc text0)).2 with
     | none =>
        (parse text0).long_description = none ∧
        (parse text0).blank_after_short_description = none ∧
        (parse text0).blank_after_long_description = none
     | some rest =>
        (parse text0).long_description = _clean_str rest ∧
        (parse text0).blank_after_short_description = some (startsWithNewline rest) ∧
        (parse text0).blank_after_long_description = some (endsWithTwoNewlines rest)) := by
  have hparse : parse text0 = { descChunkFill (cleandoc text0) with meta := [] } := by
    rw [parse, parseWith, if_neg h0]
    simp only [hnone, sectionChunksOf, sectionMatchesOf, metaChunkOf, if_neg h0,
      finditer_nil]
    rfl
  rw [hparse]
  cases h2 : (splitOnce (cleandoc text0)).2 with
  | none =>
    refine ⟨rfl, ?_, ?_⟩ <;> simp [descChunkFill, h2]
  | some rest =>
    refine ⟨rfl, ?_, ?_⟩ <;> simp [descChunkFill, h2]

/-- Witness for `no_header_description_split` at the input
`"hello\n\nworld"`. -/
theorem no_header_description_split_witness :
    (parse "hello\n\nworld".data).meta = [] ∧
    (parse "hello\n\nworld".data).short_description = some "hello".data ∧
    (parse "hello\n\nworld".data).long_description = some "world".data ∧
    (parse "hello\n\nworld".data).blank_after_short_description = some true ∧
    (parse "hello\n\nworld".data).blank_after_long_description = some false := by
  have h := no_header_description_split "hello\n\nworld".data (by decide) (by decide)
  exact ⟨h.1, h.2.1, (h.2.2 : _ ∧ _ ∧ _).1, (h.2.2 : _ ∧ _ ∧ _).2.1, (h.2.2 : _ ∧ _ ∧ _).2.2⟩

/-- C3: for a ParameterLike item, a type clause with a trailing `", optional"`
or `"(optional)"` marker is stripped and sets `is_optional := true`; a type
clause without the marker is kept with `is_optional := false`; with no type
clause `is_optional` stays unset; independently a default-value hint found in
the body by the loose `default …` pattern is captured as the default.  For
key line `"x : int, optional"` with body `"Default: 5"` the record is
`name "x"`, `type "int"`, optional, default `"5"`. -/
theorem param_item_extraction (skey key value : List Char) :
    ((paramKeySplit key).2 = none →
      (paramParseItem skey key value).is_optional = none ∧
      (paramParseItem skey key value).type_name = none) ∧
    (∀ t, (paramKeySplit key).2 = some t →
      (", optional".data.isSuffixOf t || "(optional)".data.isSuffixOf t) = false →
      (paramParseItem skey key value).type_name = some t ∧
      (paramParseItem skey key value).is_optional = some false) ∧
    (∀ t, (paramKeySplit key).2 = some (t ++ ", optional".data) →
      (paramParseItem skey key value).type_name = some t ∧
      (paramParseItem skey key value).is_optional = some true) ∧
    (∀ t, (paramKeySplit key).2 = some (t ++ "(optional)".data) →
      (paramParseItem skey key value).type_name = some t ∧
      (paramParseItem skey key value).is_optional = some true) ∧
    (∀ v, defaultSearch value = some v → ¬ (value = []) →
      (paramParseItem skey key value).default = some v) ∧
    (paramParseItem "param".data "x : int, optional".data "Default: 5".data =
      { args := ["param".data, "x".data], description := some "Default: 5".data,
        arg_name := some "x".data, type_name := some "int".data,
        is_optional := some true, default := some "5".data }) := by
  refine ⟨?_, ?_, ?_, ?_, ?_, by decide⟩
  · intro h
    simp [paramParseItem, h]
  · intro t h hsuff
    simp [paramParseItem, h, stripOptionalSuffix, hsuff]
  · intro t h
    have hs : stripOptionalSuffix (t ++ ", optional".data) = some t :=
      stripOptionalSuffix_comma t
    simp only [paramParseItem, h, hs]
    exact ⟨trivial, trivial⟩
  · intro t h
    have hs : stripOptionalSuffix (t ++ "(optional)".data) = some t :=
      stripOptionalSuffix_paren t
    simp only [paramParseItem, h, hs]
    exact ⟨trivial, trivial⟩
  · intro v hv hne
    cases value with
    | nil => exact absurd rfl hne
    | cons c cs => simp [paramParseItem, hv]

/-- Witness for `param_item_extraction` at key `"y : str, optional"`, key
`"z : int"` and body `"Default: 5"`. -/
theorem param_item_extraction_witness :
    (paramParseItem "param".data "y : str, optional".data "Default: 5".data).type_name =
      some "str".data ∧
    (paramParseItem "param".data "y : str, optional".data "Default: 5".data).is_optional =
      some true ∧
    (paramParseItem "param".data "z : int".data "Default: 5".data).is_optional =
      some false ∧
    (paramParseItem "param".data "z : int".data "Default: 5".data).default =
      some "5".data := by
  have h1 := (param_item_extraction "param".data "y : str, optional".data
    "Default: 5".data).2.2.1 "str".data (by decide)
  have h2 := (param_item_extraction "param".data "z : int".data
    "Default: 5".data).2.1 "int".data (by decide) (by decide)
  have h3 := (param_item_extraction "param".data "z : int".data
    "Default: 5".data).2.2.2.2.1 "5".data (by decide) (by decide)
  exact ⟨h1.1, h1.2, h2.2, h3⟩

/-- C7: after any sequence of add-or-replace mutations the registry maps each
title to the most recently added descriptor for that title (falling back to
the starting registry), and because the boundary matcher is derived from the
current registry, a title registered for the first time is recognized as a
section boundary on the next parse call: `"Custom"` is no boundary with the
default sections but becomes one after `add_section`. -/
theorem registry_last_wins_and_in_sync :
    (∀ (R ops : List Section) (t : List Char),
      lookupTitle (ops.foldl addSection R) t =
        (match ops.reverse.find? (fun s => s.title == t) with
         | some s => some s
         | none => lookupTitle R t)) ∧
    (parseWith defaultSections "Hi.\n\nCustom\n------\nStuff.".data).meta = [] ∧
    (parseWith (addSection defaultSections ⟨"Custom".data, "custom".data, .plain⟩)
        "Hi.\n\nCustom\n------\nStuff.".data).meta =
      [{ args := ["custom".data], description := some "Stuff.".data }] := by
  refine ⟨?_, by decide, by decide⟩
  intro R ops t
  induction ops generalizing R with
  | nil => simp
  | cons o ops ih =>
    rw [List.foldl_cons, ih (addSection R o), lookupTitle_addSection]
    rw [List.reverse_cons, List.find?_append]
    cases h : ops.reverse.find? (fun s => s.title == t) with
    | some s => rfl
    | none =>
      rw [List.find?_singleton]
      by_cases hpo : o.title == t
      · rw [if_pos hpo, if_pos hpo]
        simp
      · rw [if_neg hpo, if_neg hpo]
        simp

/-- C2: the metadata list is exactly the concatenation, in match order, of
the records of each section chunk; the underlying title matches have strictly
increasing start positions (source order); and within a key/value section the
keys of the items are exactly the item-start lines of the chunk in source
order. -/
theorem meta_records_in_source_order (text0 chunk : List Char) :
    (parse text0).meta =
      (sectionChunksOf defaultSections text0).flatMap (fun sc => sectionParse sc.1 sc.2) ∧
    List.Pairwise (fun a b => a.1 < b.1) (sectionMatchesOf defaultSections text0) ∧
    (kvItems chunk).map (fun kv => kv.1) = (splitLines chunk).filter isItemStart := by
  refine ⟨?_, ?_, kvItems_keys chunk⟩
  · by_cases h : text0 = []
    · subst h
      have h1 : sectionChunksOf defaultSections [] = [] := by
        simp [sectionChunksOf, sectionMatchesOf, metaChunkOf, finditer_nil, pairwiseNext]
      rw [h1]
      rfl
    · rw [parse, parseWith, if_neg h]
  · exact finditerAux_sorted defaultSections _ _ 0

/-- C10: in every parse result, every record's description — and its version
field — is either absent or a non-empty string equal to its own strip
(no leading or trailing whitespace). -/
theorem meta_fields_stripped (regs : List Section) (text : List Char) :
    ∀ m ∈ (parseWith regs text).meta, cleanOpt m.description ∧ cleanOpt m.version := by
  intro m hm
  by_cases h : text = []
  · subst h
    simp [parseWith] at hm
  · have hmeta : (parseWith regs text).meta =
        (sectionChunksOf regs text).flatMap (fun sc => sectionParse sc.1 sc.2) := by
      rw [parseWith, if_neg h]
    rw [hmeta] at hm
    obtain ⟨sc, _, hmem⟩ := List.mem_flatMap.mp hm
    exact sectionParse_cleanOpt sc.1 sc.2 m hmem

/-- Witness for `meta_fields_stripped` at the input `"a\n\nNotes\n-----\n  hi "`
whose single record has the stripped description `"hi"`. -/
theorem meta_fields_stripped_witness :
    cleanOpt ({ args := ["notes".data], description := some "hi".data } : DocstringMeta).description ∧
    cleanOpt ({ args := ["notes".data], description := some "hi".data } : DocstringMeta).version :=
  meta_fields_stripped defaultSections "a\n\nNotes\n-----\n  hi ".data
    { args := ["notes".data], description := some "hi".data } (by decide)

end Numpydoc
